import Mathlib

/-!
Verification development for the `libhomeseer` Python library.

The relevant parts of the source (`devices.py`, `listener.py`, `homeseer.py`)
are shallowly embedded below: Python strings become `List Char`, Python `dict`
registries become association lists with dict update semantics, Python `float`
arithmetic is modelled by correctly-rounded binary64 arithmetic over `ℚ`
(round to nearest, ties to even, valid on the normal range, which covers all
values arising here), and code that can raise is modelled with explicit
error components.  Side effects (HTTP control requests, task spawning,
callback invocations) are reified as explicit outputs.
-/

namespace LibHomeSeer

/-! ## Python string primitives -/

/-- Characters treated as whitespace by Python's `str.strip()` (ASCII range;
the inputs modelled here are ASCII protocol lines). -/
def pySpace (c : Char) : Bool :=
  c = ' ' || c = '\t' || c = '\n' || c = '\r' || c = Char.ofNat 11 || c = Char.ofNat 12

/-- Model of Python `str.strip()`: drop whitespace from both ends. -/
def pyStrip (l : List Char) : List Char :=
  ((l.dropWhile pySpace).reverse.dropWhile pySpace).reverse

/-- Model of Python `str.split(",")` (no maxsplit): split on every comma,
keeping empty fields.  Always returns at least one element. -/
def splitComma : List Char → List (List Char)
  | [] => [[]]
  | c :: cs =>
    if c = ',' then [] :: splitComma cs
    else
      match splitComma cs with
      | [] => [[c]]
      | h :: t => (c :: h) :: t

theorem splitComma_ne_nil (l : List Char) : splitComma l ≠ [] := by
  cases l with
  | nil => simp [splitComma]
  | cons c cs =>
    simp only [splitComma]
    split
    · simp
    · split
      · simp
      · simp

theorem splitComma_singleton (l x : List Char) (h : splitComma l = [x]) : x = l := by
  induction l generalizing x with
  | nil => simpa [splitComma] using h.symm
  | cons c cs ih =>
    simp only [splitComma] at h
    by_cases hc : c = ','
    · rw [if_pos hc] at h
      have := splitComma_ne_nil cs
      cases h' : splitComma cs with
      | nil => exact absurd h' this
      | cons a b => rw [h'] at h; simp at h
    · rw [if_neg hc] at h
      cases h' : splitComma cs with
      | nil => exact absurd h' (splitComma_ne_nil cs)
      | cons a b =>
        rw [h'] at h
        have hb : b = [] := by
          have := congrArg List.length h
          simp at this
          exact this
        subst hb
        have ha : a = cs := ih a (by rw [h'])
        have hx : x = c :: a := by
          have := congrArg (fun m => List.head? m) h
          simpa using this.symm
        rw [hx, ha]

/-- Numeric value of an ASCII digit character. -/
def digitVal (c : Char) : ℕ := c.toNat - 48

/-- Core digit-sequence parser for Python `int(str)`: consumes digits, allowing
a single underscore between two digits (as Python does). -/
def parseDigitsCore : List Char → ℕ → Option ℕ
  | [], acc => some acc
  | c :: cs, acc =>
    if c = '_' then
      match cs with
      | [] => none
      | c2 :: cs2 =>
        if c2.isDigit then parseDigitsCore cs2 (acc * 10 + digitVal c2) else none
    else if c.isDigit then parseDigitsCore cs (acc * 10 + digitVal c) else none

/-- Parse a nonempty ASCII digit sequence (with Python underscore rules). -/
def parseDigits : List Char → Option ℕ
  | [] => none
  | c :: cs => if c.isDigit then parseDigitsCore cs (digitVal c) else none

/-- Model of Python `int(str)` on ASCII decimal literals: strip whitespace,
accept an optional sign, then a digit sequence; anything else raises
`ValueError`, modelled as `none`. -/
def pyParseInt (l : List Char) : Option ℤ :=
  match pyStrip l with
  | [] => none
  | c :: rest =>
    if c = '+' then (parseDigits rest).map (fun n => (n : ℤ))
    else if c = '-' then (parseDigits rest).map (fun n => -(n : ℤ))
    else (parseDigits (c :: rest)).map (fun n => (n : ℤ))

/-! ## devices.py: constants -/

def CONTROL_USE_ON : ℤ := 1
def CONTROL_USE_OFF : ℤ := 2
def CONTROL_USE_DIM : ℤ := 3
def CONTROL_USE_LOCK : ℤ := 18
def CONTROL_USE_UNLOCK : ℤ := 19
def CONTROL_LABEL_LOCK : String := "Lock"
def CONTROL_LABEL_UNLOCK : String := "Unlock"

def SUPPORT_STATUS : ℕ := 0
def SUPPORT_ON : ℕ := 1
def SUPPORT_OFF : ℕ := 2
def SUPPORT_LOCK : ℕ := 4
def SUPPORT_UNLOCK : ℕ := 8
def SUPPORT_DIM : ℕ := 16

/-! ## devices.py: data model -/

/-- Raw JSON device record; only the `ref` field (already converted by
`int()`) is consumed by the code paths verified here. -/
structure RawData where
  ref : ℤ
deriving DecidableEq, Repr

/-- One control pair from the `getcontrol` response: `ControlUse` code,
`Label`, and `ControlValue`. -/
structure ControlPair where
  ControlUse : ℤ
  Label : String
  ControlValue : ℤ
deriving DecidableEq, Repr

/-- One entry of the `getcontrol` response `Devices` list: a device `ref`
with its list of control pairs. -/
structure ControlDataItem where
  ref : ℤ
  ControlPairs : List ControlPair
deriving DecidableEq, Repr

/-- Accumulator mirroring the local variables of `get_device`. -/
structure ControlScan where
  on_value : Option ℤ
  off_value : Option ℤ
  lock_value : Option ℤ
  unlock_value : Option ℤ
  supported_features : ℕ
deriving DecidableEq, Repr

/-- Initial accumulator state of `get_device` (all values `None`,
`supported_features = SUPPORT_STATUS`). -/
def ControlScan.init : ControlScan :=
  ⟨none, none, none, none, SUPPORT_STATUS⟩

/-- One step of the inner `for pair in control_pairs` loop of `get_device`:
the `elif` chain over `ControlUse` (with label fallback for lock/unlock). -/
def scanPair (st : ControlScan) (pair : ControlPair) : ControlScan :=
  if pair.ControlUse = CONTROL_USE_ON then
    { st with on_value := some pair.ControlValue,
              supported_features := st.supported_features ||| SUPPORT_ON }
  else if pair.ControlUse = CONTROL_USE_OFF then
    { st with off_value := some pair.ControlValue,
              supported_features := st.supported_features ||| SUPPORT_OFF }
  else if pair.ControlUse = CONTROL_USE_LOCK ∨ pair.Label = CONTROL_LABEL_LOCK then
    { st with lock_value := some pair.ControlValue,
              supported_features := st.supported_features ||| SUPPORT_LOCK }
  else if pair.ControlUse = CONTROL_USE_UNLOCK ∨ pair.Label = CONTROL_LABEL_UNLOCK then
    { st with unlock_value := some pair.ControlValue,
              supported_features := st.supported_features ||| SUPPORT_UNLOCK }
  else if pair.ControlUse = CONTROL_USE_DIM then
    { st with supported_features := st.supported_features ||| SUPPORT_DIM }
  else st

/-- The scan phase of `get_device`: find the first `control_data` entry whose
`ref` matches the device's `ref` (the Python loop breaks after it) and fold
the `elif` chain over its control pairs. -/
def controlScan (raw_data : RawData) (control_data : List ControlDataItem) : ControlScan :=
  match control_data.find? (fun item => item.ref = raw_data.ref) with
  | none => ControlScan.init
  | some item => item.ControlPairs.foldl scanPair ControlScan.init

/-- The four device classes `get_device` can construct, with the control
values each constructor receives (`None` is a possible Python value, hence
`Option ℤ`). -/
inductive Device
  | status (raw_data : RawData)
  | switchable (raw_data : RawData) (on_value off_value : Option ℤ)
  | dimmable (raw_data : RawData) (on_value off_value : Option ℤ)
  | lockable (raw_data : RawData) (lock_value unlock_value : Option ℤ)
deriving DecidableEq, Repr

/-- The capability variant of a constructed device. -/
inductive DVariant
  | status
  | switchable
  | dimmable
  | lockable
deriving DecidableEq, Repr

/-- Variant tag of a `Device`. -/
def Device.variant : Device → DVariant
  | .status _ => .status
  | .switchable _ _ _ => .switchable
  | .dimmable _ _ _ => .dimmable
  | .lockable _ _ _ => .lockable

/-- Model of `get_device`: scan the control pairs, then decide the class by
exact equality of `supported_features` against the three known combinations,
falling back to a status-only device. -/
def getDevice (raw_data : RawData) (control_data : List ControlDataItem) : Device :=
  let st := controlScan raw_data control_data
  if st.supported_features = SUPPORT_ON ||| SUPPORT_OFF then
    .switchable raw_data st.on_value st.off_value
  else if st.supported_features = SUPPORT_ON ||| SUPPORT_OFF ||| SUPPORT_DIM then
    .dimmable raw_data st.on_value st.off_value
  else if st.supported_features = SUPPORT_LOCK ||| SUPPORT_UNLOCK then
    .lockable raw_data st.lock_value st.unlock_value
  else
    .status raw_data

/-! ## devices.py: status device state and update propagation

`HomeSeerStatusDevice` carries `_raw_data`, `_update_callback` (modelled by
its presence) and `_suppress_update_callback`. -/

/-- Mutable state of a `HomeSeerStatusDevice` (base class of every device):
the cached raw data, whether an update callback is registered, and the
suppression flag. -/
structure StatusDevice where
  raw_data : RawData
  has_update_callback : Bool
  suppress_update_callback : Bool
deriving DecidableEq, Repr

/-- Model of the `ref` property: `int(self._raw_data["ref"])` (the conversion
is already folded into `RawData.ref`). -/
def StatusDevice.ref (d : StatusDevice) : ℤ := d.raw_data.ref

/-- Model of `register_update_callback(callback, suppress_on_connection)`. -/
def StatusDevice.register_update_callback (d : StatusDevice) (suppress_on_connection : Bool) :
    StatusDevice :=
  { d with suppress_update_callback := suppress_on_connection, has_update_callback := true }

/-- Model of `update_data(new_data, connection_flag)`.  Returns the updated
device state together with whether the registered callback was invoked. -/
def StatusDevice.update_data (d : StatusDevice) (new_data : Option RawData)
    (connection_flag : Bool) : StatusDevice × Bool :=
  let d' := match new_data with
    | some nd => { d with raw_data := nd }
    | none => d
  if connection_flag && d.suppress_update_callback then (d', false)
  else (d', d.has_update_callback)

/-! ## Binary64 model

`HomeSeerDimmableDevice.dim` computes `int(self._on_value * (percent / 100))`
with Python `float` (IEEE binary64) arithmetic: `percent / 100` is the
correctly rounded quotient, the `int` factor is converted to the nearest
binary64, the product is rounded again, and `int(...)` truncates toward
zero.  `rnd64` below is correct rounding to binary64 (round to nearest,
ties to even) on the normal range, which covers every value arising from
these operands; overflow and subnormals are outside the modelled range. -/

/-- Fuel-driven floor of the base-2 logarithm (structural recursion, so the
kernel can evaluate it). -/
def log2floorGo : ℕ → ℕ → ℕ
  | 0, _ => 0
  | fuel + 1, n => if 2 ≤ n then log2floorGo fuel (n / 2) + 1 else 0

/-- Floor of the base-2 logarithm of a positive natural number. -/
def log2floor (n : ℕ) : ℕ := log2floorGo n n

/-- Floor of the base-2 logarithm of the positive rational `a / b`. -/
def ratioLog2 (a b : ℕ) : ℤ :=
  if b ≤ a then (log2floor (a / b) : ℤ)
  else
    let M := log2floor (b / a)
    if b ≤ a * 2 ^ M then -(M : ℤ) else -(M : ℤ) - 1

/-- Round the positive rational `A / B` to the nearest integer, ties to
even (the significand-rounding core of binary64 rounding). -/
def roundPosRatio (A B : ℕ) : ℕ :=
  let f := A / B
  let rem := A % B
  if 2 * rem < B then f
  else if B < 2 * rem then f + 1
  else if f % 2 = 0 then f else f + 1

/-- Correctly round the positive rational `a / b` to binary64 (round to
nearest, ties to even): scale the ratio by `2 ^ -e` into an integer ratio
and round its significand, so that the value is `m * 2 ^ e`.  Valid on the
normal range (no overflow or subnormal handling), which covers every value
arising in `dim`. -/
def floatOfPosRatio (a b : ℕ) : ℕ × ℤ :=
  let e : ℤ := ratioLog2 a b - 52
  if 0 ≤ e then (roundPosRatio a (b * 2 ^ e.toNat), e)
  else (roundPosRatio (a * 2 ^ (-e).toNat) b, e)

/-- Exact rational value of a significand-exponent pair. -/
def ratVal (me : ℕ × ℤ) : ℚ := (me.1 : ℚ) * 2 ^ me.2

/-- An HTTP control/status request issued through the `request` collaborator,
reified as its `params` dict. -/
structure Request where
  request : String
  ref : Option ℤ
  value : Option ℤ
deriving DecidableEq, Repr

/-- The value computed by `dim`: Python `int(self._on_value * (percent / 100))`
under binary64 semantics.  `percent / 100` is the correctly rounded binary64
quotient, `self._on_value` is converted to the nearest binary64, the product
is rounded again, and `int` truncates toward zero.  Both rounding and
truncation commute with negation, so the computation is carried out on
magnitudes with the sign applied at the end. -/
def dimValue (on_value percent : ℤ) : ℤ :=
  if on_value = 0 ∨ percent = 0 then 0
  else
    let p1 := floatOfPosRatio percent.natAbs 100
    let p0 := floatOfPosRatio on_value.natAbs 1
    let a := p0.1 * p1.1
    let e := p0.2 + p1.2
    let p2 := if 0 ≤ e then floatOfPosRatio (a * 2 ^ e.toNat) 1
              else floatOfPosRatio a (2 ^ (-e).toNat)
    let mag := if 0 ≤ p2.2 then p2.1 * 2 ^ p2.2.toNat else p2.1 / 2 ^ (-p2.2).toNat
    if (on_value < 0 ↔ percent < 0) then (mag : ℤ) else -(mag : ℤ)

/-- Model of `HomeSeerDimmableDevice.dim(percent)`.  Returns the list of
control requests issued (in order) and, when the argument check fails, the
`ValueError` message raised before any request is sent. -/
def dim (on_value ref percent : ℤ) : List Request × Option String :=
  if percent < 0 ∨ 100 < percent then
    ([], some "Percent must be an integer from 0 to 100")
  else
    ([⟨"controldevicebyvalue", some ref, some (dimValue on_value percent)⟩], none)

/-! ## listener.py: connection state machine

The `Listener` owns the state string, the ping flag, and the ping task.
Network traffic and task spawning are reified: `ConnScript` gives the
outcome of one `_open_connection` attempt (whether `asyncio.open_connection`
succeeds, and the decoded auth reply line), and the effect records collect
which tasks were spawned and which callbacks were invoked. -/

/-- The three values of `Listener._state`. -/
inductive LState
  | idle
  | connected
  | stopped
deriving DecidableEq, Repr

/-- State of a `Listener` instance (fields of `Listener.__init__` that the
verified code paths read or write; callbacks are modelled by presence). -/
structure ListenerModel where
  state : LState
  ping_flag : Bool
  has_ping_task : Bool
  has_writer : Bool
  has_connect_cb : Bool
  has_disconnect_cb : Bool
deriving DecidableEq, Repr

/-- Outcome of the environment for one `_open_connection` attempt:
whether `asyncio.open_connection` succeeds, and the decoded reply line
read after writing the credential line. -/
structure ConnScript where
  connect_ok : Bool
  auth_reply : List Char
deriving DecidableEq, Repr

/-- Model of `Listener._open_connection`: returns the boolean result, the
listener state afterwards, and whether the connect callback was invoked. -/
def openConnection (m : ListenerModel) (script : ConnScript) :
    Bool × ListenerModel × Bool :=
  if script.connect_ok = false then (false, m, false)
  else
    let m1 := { m with has_writer := true }
    if pyStrip script.auth_reply = ['o', 'k'] then
      let m2 := { m1 with ping_flag := true, state := LState.connected }
      (true, m2, m2.has_connect_cb)
    else (false, m1, false)

/-- Modelled from the spec: the wire protocol is "line-oriented,
`\r\n`-terminated", so the body of a reply line is its content before the
`\r\n` terminator. -/
def specLineBody (l : List Char) : List Char :=
  if l.reverse.take 2 = ['\n', '\r'] then (l.reverse.drop 2).reverse else l

/-- Tasks spawned and callbacks invoked by one `start()` call. -/
structure StartEffects where
  listen_spawned : Bool
  ping_spawned : Bool
  connect_cb_called : Bool
  reconnect_handler_spawned : Bool
deriving DecidableEq, Repr

/-- Model of `Listener.start`: set state to idle, attempt
`_open_connection`; on success spawn the read loop and the ping task, on
failure spawn `_connect_handler` (the delayed reconnect). -/
def start (m : ListenerModel) (script : ConnScript) : ListenerModel × StartEffects :=
  let m0 := { m with state := LState.idle }
  let r := openConnection m0 script
  if r.1 then
    ({ r.2.1 with has_ping_task := true },
     ⟨true, true, r.2.2, false⟩)
  else
    (r.2.1, ⟨false, false, false, true⟩)

/-- Result of `_handle_message` on one decoded line: the ping flag is set,
the message callback may be invoked with the second comma-separated field,
and a malformed `DC` line with no second field raises `IndexError`. -/
structure HandleResult where
  ping_flag : Bool
  callback_arg : Option (List Char)
  raised : Bool
deriving DecidableEq, Repr

/-- Model of `Listener._handle_message(raw)`: split on commas, set the ping
flag, and on a `DC` first field invoke the message callback (when
registered) with the second field; `msg[1]` on a comma-free `DC` line
raises `IndexError`.  Any other first field is only logged. -/
def handleMessage (has_message_cb : Bool) (raw : List Char) : HandleResult :=
  match splitComma raw with
  | [] => ⟨true, none, false⟩   -- unreachable: splitComma never returns []
  | first :: rest =>
    if first = ['D', 'C'] then
      if has_message_cb then
        match rest with
        | r :: _ => ⟨true, some r, false⟩
        | [] => ⟨true, none, true⟩
      else ⟨true, none, false⟩
    else ⟨true, none, false⟩

/-- Effects of the disconnect path (`_disconnect_handler` followed by
`_connect_handler`). -/
structure StopEffects where
  ping_cancelled : Bool
  writer_closed : Bool
  disconnect_cb_called : Bool
  reconnect_started : Bool
deriving DecidableEq, Repr

/-- Model of `Listener._connect_handler`: re-invokes `start` (after the
fixed delay) exactly when the state is not `stopped`. -/
def connectHandlerStarts (m : ListenerModel) : Bool :=
  m.state ≠ LState.stopped

/-- Model of `Listener._disconnect_handler`: cancel the ping task if there
is one, close the writer if there is one, invoke the disconnect callback if
registered, then run `_connect_handler`. -/
def disconnectHandler (m : ListenerModel) : ListenerModel × StopEffects :=
  (m, ⟨m.has_ping_task, m.has_writer, m.has_disconnect_cb, connectHandlerStarts m⟩)

/-- Model of `Listener.stop`: set state to `stopped`, then run the
disconnect path. -/
def stop (m : ListenerModel) : ListenerModel × StopEffects :=
  disconnectHandler { m with state := LState.stopped }

/-! ## homeseer.py: device registry and callbacks

`HomeSeer._devices` is a Python dict from integer ref to device object;
modelled as an association list with dict update semantics (replace the
entry when the key is present, append otherwise).  Device mutation is
modelled by replacing the looked-up entry's device. -/

/-- The `HomeSeer._devices` registry. -/
abbrev Registry := List (ℤ × StatusDevice)

/-- Dict lookup `self._devices[k]` (first matching key). -/
def dictGet (reg : Registry) (k : ℤ) : Option StatusDevice :=
  match reg with
  | [] => none
  | (k', v) :: rest => if k' = k then some v else dictGet rest k

/-- Dict assignment `self._devices[k] = v`. -/
def dictSet (reg : Registry) (k : ℤ) (v : StatusDevice) : Registry :=
  match reg with
  | [] => [(k, v)]
  | (k', v') :: rest => if k' = k then (k, v) :: rest else (k', v') :: dictSet rest k v

/-- Discovery-time insertion loop of `HomeSeer._get_devices`:
`self._devices[dev.ref] = dev` for each created device. -/
def insertDevices (reg : Registry) (devs : List StatusDevice) : Registry :=
  devs.foldl (fun r d => dictSet r (StatusDevice.ref d) d) reg

/-- The refresh loop of `HomeSeer._message_callback`: for each fetched raw
record whose ref equals the device's ref, `device.update_data(raw_dev)`. -/
def refreshLoop (d : StatusDevice) (raws : List RawData) : StatusDevice :=
  raws.foldl
    (fun d raw => if raw.ref = StatusDevice.ref d then (d.update_data (some raw) false).1 else d)
    d

/-- Model of `HomeSeer._message_callback(device_ref)`.  `fetch` is the
`getstatus` response for the single ref (`none` models a failed or
non-JSON response, which the code catches and logs).  The result is
`Except.error ()` when the handler raises (the uncaught `ValueError` from
`int(device_ref)`); otherwise the list of issued requests and the updated
registry. -/
def messageCallback (reg : Registry) (device_ref : List Char)
    (fetch : Option (List RawData)) : Except Unit (List Request × Registry) :=
  match pyParseInt device_ref with
  | none => Except.error ()
  | some n =>
    match dictGet reg n with
    | none => Except.ok ([], reg)
    | some device =>
      let req : Request := ⟨"getstatus", some (StatusDevice.ref device), none⟩
      match fetch with
      | none => Except.ok ([req], reg)
      | some raws => Except.ok ([req], dictSet reg n (refreshLoop device raws))

/-- Result of `_connect_callback` / `_disconnect_callback`: the availability
flag, the updated registry, and the `update_data` invocations issued,
reified as (registry key, connection_flag) pairs in order. -/
structure SyncResult where
  available : Bool
  registry : Registry
  updates : List (ℤ × Bool)
deriving DecidableEq, Repr

/-- The refresh loop of `HomeSeer._connect_callback`: for each fetched raw
record, look up its ref in the registry; on `KeyError` skip it, otherwise
`device.update_data(new_data=raw_device, connection_flag=True)`. -/
def connectLoop (reg : Registry) : List RawData → Registry × List (ℤ × Bool)
  | [] => (reg, [])
  | raw :: raws =>
    match dictGet reg raw.ref with
    | none => connectLoop reg raws
    | some d =>
      let r := connectLoop (dictSet reg raw.ref (d.update_data (some raw) true).1) raws
      (r.1, (raw.ref, true) :: r.2)

/-- Model of `HomeSeer._connect_callback`: set availability to `True`; fetch
the full `getstatus` collection (`none` models the `TypeError` path of a
failed fetch, which returns early); update every fetched record whose ref is
a registry key. -/
def connectCallback (reg : Registry) (fetch : Option (List RawData)) : SyncResult :=
  match fetch with
  | none => ⟨true, reg, []⟩
  | some raws =>
    let r := connectLoop reg raws
    ⟨true, r.1, r.2⟩

/-- Model of `HomeSeer._disconnect_callback`: set availability to `False`
and call `update_data(connection_flag=True)` on every registered device. -/
def disconnectCallback (reg : Registry) : SyncResult :=
  ⟨false,
   reg.map (fun p => (p.1, (p.2.update_data none true).1)),
   reg.map (fun p => (p.1, true))⟩

/-- Registry key consistency: every entry's device has `ref` equal to its
key. -/
def RegInv (reg : Registry) : Prop :=
  ∀ p ∈ reg, StatusDevice.ref p.2 = p.1

instance (reg : Registry) : Decidable (RegInv reg) :=
  inferInstanceAs (Decidable (∀ p ∈ reg, StatusDevice.ref p.2 = p.1))

/-! ## Claim theorems -/

/-- C1: for every device, if the accumulated control-pair feature bitmask is
exactly `{on, off}` then `get_device` returns the Switchable variant; for
exactly `{on, off, dim}` the Dimmable variant; for exactly `{lock, unlock}`
the Lockable variant; and for any other bitmask (including the empty one)
the Status-only variant. -/
theorem c1_get_device_classification (raw_data : RawData)
    (control_data : List ControlDataItem) :
    ((controlScan raw_data control_data).supported_features = SUPPORT_ON ||| SUPPORT_OFF →
      (getDevice raw_data control_data).variant = DVariant.switchable) ∧
    ((controlScan raw_data control_data).supported_features
        = SUPPORT_ON ||| SUPPORT_OFF ||| SUPPORT_DIM →
      (getDevice raw_data control_data).variant = DVariant.dimmable) ∧
    ((controlScan raw_data control_data).supported_features = SUPPORT_LOCK ||| SUPPORT_UNLOCK →
      (getDevice raw_data control_data).variant = DVariant.lockable) ∧
    ((controlScan raw_data control_data).supported_features ≠ SUPPORT_ON ||| SUPPORT_OFF →
      (controlScan raw_data control_data).supported_features
        ≠ SUPPORT_ON ||| SUPPORT_OFF ||| SUPPORT_DIM →
      (controlScan raw_data control_data).supported_features ≠ SUPPORT_LOCK ||| SUPPORT_UNLOCK →
      (getDevice raw_data control_data).variant = DVariant.status) := by
  have e1 : (SUPPORT_ON ||| SUPPORT_OFF : ℕ) = 3 := rfl
  have e2 : (SUPPORT_ON ||| SUPPORT_OFF ||| SUPPORT_DIM : ℕ) = 19 := rfl
  have e3 : (SUPPORT_LOCK ||| SUPPORT_UNLOCK : ℕ) = 12 := rfl
  have e4 : (3 ||| SUPPORT_DIM : ℕ) = 19 := rfl
  refine ⟨fun h => ?_, fun h => ?_, fun h => ?_, fun h1 h2 h3 => ?_⟩
  · rw [e1] at h; simp [getDevice, Device.variant, e1, e2, e3, e4, h]
  · rw [e2] at h; simp [getDevice, Device.variant, e1, e2, e3, e4, h]
  · rw [e3] at h; simp [getDevice, Device.variant, e1, e2, e3, e4, h]
  · rw [e1] at h1; rw [e2] at h2; rw [e3] at h3
    simp [getDevice, Device.variant, e1, e2, e3, e4, h1, h2, h3]

/-- Witness for C1 at a concrete device whose control pairs are an On/Off
pair, discharging the bitmask hypothesis. -/
theorem c1_get_device_classification_witness :
    (controlScan ⟨1⟩ [⟨1, [⟨1, "On", 255⟩, ⟨2, "Off", 0⟩]⟩]).supported_features
      = SUPPORT_ON ||| SUPPORT_OFF ∧
    (getDevice ⟨1⟩ [⟨1, [⟨1, "On", 255⟩, ⟨2, "Off", 0⟩]⟩]).variant = DVariant.switchable :=
  ⟨by decide, (c1_get_device_classification ⟨1⟩ [⟨1, [⟨1, "On", 255⟩, ⟨2, "Off", 0⟩]⟩]).1
    (by decide)⟩

/-- C3: `dim(percent)` raises the invalid-argument `ValueError` exactly when
`percent` lies outside `[0, 100]`, and in that case no control request is
issued (the error is raised before the request); for in-range `percent` no
error is raised. -/
theorem c3_dim_argument_check (on_value ref percent : ℤ) :
    (((dim on_value ref percent).2.isSome = true) ↔ (percent < 0 ∨ 100 < percent)) ∧
    ((percent < 0 ∨ 100 < percent) → (dim on_value ref percent).1 = []) ∧
    (¬(percent < 0 ∨ 100 < percent) → (dim on_value ref percent).2 = none) := by
  by_cases h : percent < 0 ∨ 100 < percent <;> simp [dim, h]

/-- Witness for C3 at `percent = 101` (out of range: error, no request) . -/
theorem c3_dim_argument_check_witness :
    ((101 : ℤ) < 0 ∨ (100 : ℤ) < 101) ∧ (dim 255 1 101).1 = [] :=
  ⟨by decide, (c3_dim_argument_check 255 1 101).2.1 (by decide)⟩

/-- C8: after `stop()` the state is `stopped`, the ping (keepalive) task is
cancelled when one exists, and the disconnect path's trailing
`_connect_handler` does not re-invoke `start` (no reconnect is scheduled
once the state is `stopped`). -/
theorem c8_stop_no_reconnect (m : ListenerModel) :
    ((stop m).1.state = LState.stopped) ∧
    ((stop m).2.reconnect_started = false) ∧
    (m.has_ping_task = true → (stop m).2.ping_cancelled = true) := by
  refine ⟨rfl, ?_, fun h => h⟩
  simp [stop, disconnectHandler, connectHandlerStarts]

/-- Witness for C8 at a concrete connected listener with a live ping task. -/
theorem c8_stop_no_reconnect_witness :
    (⟨LState.connected, true, true, true, true, true⟩ : ListenerModel).has_ping_task = true ∧
    (stop ⟨LState.connected, true, true, true, true, true⟩).2.ping_cancelled = true :=
  ⟨rfl, (c8_stop_no_reconnect ⟨LState.connected, true, true, true, true, true⟩).2.2 rfl⟩

/-- C9: `update_data` invokes the registered observer callback exactly when
a callback is registered and it is not the case that both the connection
flag and the device's suppression flag are set; in particular a
non-connectivity update always reaches a registered observer (registration
via `register_update_callback`). -/
theorem c9_update_callback_suppression (d : StatusDevice) (new_data : Option RawData)
    (connection_flag : Bool) :
    (((d.update_data new_data connection_flag).2 = true) ↔
      (d.has_update_callback = true ∧
        ¬(connection_flag = true ∧ d.suppress_update_callback = true))) ∧
    (∀ s : Bool, ∀ nd : Option RawData,
      ((d.register_update_callback s).update_data nd false).2 = true) := by
  constructor
  · cases hc : connection_flag <;> cases hs : d.suppress_update_callback <;>
      simp [StatusDevice.update_data, hc, hs]
  · intro s nd
    simp [StatusDevice.update_data, StatusDevice.register_update_callback]

/-! ### Registry helper lemmas -/

theorem dictGet_dictSet_self (reg : Registry) (k : ℤ) (v : StatusDevice) :
    dictGet (dictSet reg k v) k = some v := by
  induction reg with
  | nil => simp [dictGet, dictSet]
  | cons p rest ih =>
    by_cases hk : p.1 = k
    · simp [dictGet, dictSet, hk]
    · simp [dictGet, dictSet, hk, ih]

theorem dictGet_dictSet_ne (reg : Registry) (k k' : ℤ) (v : StatusDevice) (h : k' ≠ k) :
    dictGet (dictSet reg k' v) k = dictGet reg k := by
  induction reg with
  | nil => simp [dictGet, dictSet, h]
  | cons p rest ih =>
    by_cases hk : p.1 = k'
    · simp only [dictSet, hk, if_pos]
      simp [dictGet, h, hk]
    · simp only [dictSet, hk, if_neg, ite_false]
      simp [dictGet, ih]

theorem dictGet_some_ref (reg : Registry) (hInv : RegInv reg) (n : ℤ) (d : StatusDevice)
    (h : dictGet reg n = some d) : StatusDevice.ref d = n := by
  induction reg with
  | nil => simp [dictGet] at h
  | cons p rest ih =>
    simp only [dictGet] at h
    by_cases hk : p.1 = n
    · rw [if_pos hk] at h
      cases h
      exact (hInv p (List.mem_cons_self p rest)).trans hk
    · rw [if_neg hk] at h
      exact ih (fun q hq => hInv q (List.mem_cons_of_mem p hq)) h

theorem regInv_dictSet (reg : Registry) (hInv : RegInv reg) (k : ℤ) (v : StatusDevice)
    (hv : StatusDevice.ref v = k) : RegInv (dictSet reg k v) := by
  induction reg with
  | nil =>
    intro p hp
    simp [dictSet] at hp
    rw [hp]
    exact hv
  | cons q rest ih =>
    intro p hp
    by_cases hk : q.1 = k
    · simp only [dictSet, hk, if_pos] at hp
      rcases List.mem_cons.mp hp with h | h
      · rw [h]; exact hv
      · exact hInv p (List.mem_cons_of_mem q h)
    · simp only [dictSet, hk, ite_false] at hp
      rcases List.mem_cons.mp hp with h | h
      · rw [h]; exact hInv q (List.mem_cons_self q rest)
      · exact ih (fun r hr => hInv r (List.mem_cons_of_mem q hr)) p h

theorem update_data_ref (d : StatusDevice) (raw : RawData) (flag : Bool) :
    StatusDevice.ref (d.update_data (some raw) flag).1 = raw.ref := by
  simp only [StatusDevice.update_data]
  split <;> rfl

theorem refreshLoop_ref (raws : List RawData) (d : StatusDevice) :
    StatusDevice.ref (refreshLoop d raws) = StatusDevice.ref d := by
  induction raws generalizing d with
  | nil => rfl
  | cons raw raws ih =>
    simp only [refreshLoop, List.foldl_cons]
    by_cases hr : raw.ref = StatusDevice.ref d
    · rw [if_pos hr]
      have : StatusDevice.ref (d.update_data (some raw) false).1 = StatusDevice.ref d := by
        rw [update_data_ref]; exact hr
      rw [show (List.foldl _ _ raws : StatusDevice) = refreshLoop (d.update_data (some raw) false).1 raws from rfl,
        ih, this]
    · rw [if_neg hr]
      exact ih d

theorem regInv_insertDevices (devs : List StatusDevice) (reg : Registry) (hInv : RegInv reg) :
    RegInv (insertDevices reg devs) := by
  induction devs generalizing reg with
  | nil => exact hInv
  | cons d devs ih =>
    simp only [insertDevices, List.foldl_cons]
    exact ih (dictSet reg (StatusDevice.ref d) d) (regInv_dictSet reg hInv _ d rfl)

theorem regInv_connectLoop (raws : List RawData) (reg : Registry) (hInv : RegInv reg) :
    RegInv (connectLoop reg raws).1 := by
  induction raws generalizing reg with
  | nil => exact hInv
  | cons raw raws ih =>
    simp only [connectLoop]
    cases hget : dictGet reg raw.ref with
    | none => exact ih reg hInv
    | some d =>
      exact ih (dictSet reg raw.ref (d.update_data (some raw) true).1)
        (regInv_dictSet reg hInv _ _ (update_data_ref d raw true))

/-- C10: registry key consistency (every registry entry's device has `ref`
equal to its key) holds for the empty initial registry, is established and
preserved by the discovery-time insertion loop of `_get_devices`, and is
preserved both by the `_message_callback` refresh (which only installs
fetched records whose ref equals the device's ref) and by the
`_connect_callback` refresh (which installs each fetched record only at the
key equal to that record's own ref). -/
theorem c10_registry_key_invariant :
    RegInv ([] : Registry) ∧
    (∀ (reg : Registry) (devs : List StatusDevice),
      RegInv reg → RegInv (insertDevices reg devs)) ∧
    (∀ (reg : Registry) (device_ref : List Char) (fetch : Option (List RawData))
        (res : List Request × Registry),
      RegInv reg → messageCallback reg device_ref fetch = Except.ok res → RegInv res.2) ∧
    (∀ (reg : Registry) (fetch : Option (List RawData)),
      RegInv reg → RegInv (connectCallback reg fetch).registry) := by
  refine ⟨fun p hp => absurd hp (List.not_mem_nil p), fun reg devs h => regInv_insertDevices devs reg h,
    fun reg r fetch res hInv hok => ?_, fun reg fetch hInv => ?_⟩
  · cases hparse : pyParseInt r with
    | none => simp [messageCallback, hparse] at hok
    | some n =>
      cases hget : dictGet reg n with
      | none =>
        simp [messageCallback, hparse, hget] at hok
        rw [← hok]
        exact hInv
      | some d =>
        cases fetch with
        | none =>
          simp [messageCallback, hparse, hget] at hok
          rw [← hok]
          exact hInv
        | some raws =>
          simp [messageCallback, hparse, hget] at hok
          rw [← hok]
          refine regInv_dictSet reg hInv n (refreshLoop d raws) ?_
          rw [refreshLoop_ref]
          exact dictGet_some_ref reg hInv n d hget
  · cases fetch with
    | none => exact hInv
    | some raws => exact regInv_connectLoop raws reg hInv

/-- Witness for C10: the invariant hypotheses discharged at a concrete
registry built by insertion and refreshed through both callbacks. -/
theorem c10_registry_key_invariant_witness :
    RegInv (insertDevices [] [⟨⟨5⟩, false, false⟩]) ∧
    RegInv (connectCallback [((5 : ℤ), ⟨⟨5⟩, false, false⟩)] (some [⟨5⟩])).registry :=
  ⟨c10_registry_key_invariant.2.1 [] [⟨⟨5⟩, false, false⟩] (by decide),
   c10_registry_key_invariant.2.2.2 [((5 : ℤ), ⟨⟨5⟩, false, false⟩)] (some [⟨5⟩]) (by decide)⟩

theorem connectLoop_mem (raws : List RawData) (reg : Registry) (raw : RawData)
    (hmem : raw ∈ raws) (hkey : ∃ d, dictGet reg raw.ref = some d) :
    (raw.ref, true) ∈ (connectLoop reg raws).2 := by
  induction raws generalizing reg with
  | nil => exact absurd hmem (List.not_mem_nil raw)
  | cons r0 raws ih =>
    rcases List.mem_cons.mp hmem with h | h
    · subst h
      obtain ⟨d, hd⟩ := hkey
      simp only [connectLoop, hd]
      exact List.mem_cons_self _ _
    · simp only [connectLoop]
      cases hget : dictGet reg r0.ref with
      | none => exact ih reg h hkey
      | some d =>
        refine List.mem_cons_of_mem _ (ih (dictSet reg r0.ref (d.update_data (some r0) true).1) h ?_)
        obtain ⟨d', hd'⟩ := hkey
        by_cases he : r0.ref = raw.ref
        · exact ⟨_, by rw [← he]; exact dictGet_dictSet_self reg r0.ref _⟩
        · exact ⟨d', (dictGet_dictSet_ne reg raw.ref r0.ref _ he).trans hd'⟩

/-- C7 counterexample: a connect-notification whose device-state fetch
returns an empty collection issues no `update_data` call at all, although a
device is registered in the registry — so not every registered device
receives an `apply_update` call on connect. -/
theorem c7_connect_updates_counterexample :
    ((1 : ℤ), (⟨⟨1⟩, true, false⟩ : StatusDevice)) ∈
        ([((1 : ℤ), (⟨⟨1⟩, true, false⟩ : StatusDevice))] : Registry) ∧
    (connectCallback [((1 : ℤ), ⟨⟨1⟩, true, false⟩)] (some [])).updates = [] ∧
    (connectCallback [((1 : ℤ), ⟨⟨1⟩, true, false⟩)] (some [])).available = true := by
  refine ⟨List.mem_cons_self _ _, rfl, rfl⟩

/-- C7 amended: on a connect-notification availability becomes true and
every registered device whose ref appears in the freshly fetched device
collection receives an `update_data` call with the connection flag set; on
a disconnect-notification availability becomes false and every registered
device receives such a connection-flagged update call. -/
theorem c7_connect_disconnect_updates (reg : Registry) :
    (∀ fetch, (connectCallback reg fetch).available = true) ∧
    (∀ raws raw, raw ∈ raws → (∃ d, dictGet reg raw.ref = some d) →
      (raw.ref, true) ∈ (connectCallback reg (some raws)).updates) ∧
    ((disconnectCallback reg).available = false) ∧
    (∀ p ∈ reg, (p.1, true) ∈ (disconnectCallback reg).updates) := by
  refine ⟨fun fetch => ?_, fun raws raw hmem hkey => ?_, rfl, fun p hp => ?_⟩
  · cases fetch <;> rfl
  · exact connectLoop_mem raws reg raw hmem hkey
  · simpa [disconnectCallback] using List.mem_map_of_mem (fun q => (q.1, true)) hp

/-- Witness for C7 at a concrete registry and fetch containing the
registered device's ref. -/
theorem c7_connect_disconnect_updates_witness :
    (⟨1⟩ : RawData) ∈ [(⟨1⟩ : RawData)] ∧
    (∃ d, dictGet [((1 : ℤ), ⟨⟨1⟩, false, false⟩)] (⟨1⟩ : RawData).ref = some d) ∧
    ((1 : ℤ), true) ∈
      (connectCallback [((1 : ℤ), ⟨⟨1⟩, false, false⟩)] (some [⟨1⟩])).updates :=
  ⟨List.mem_cons_self _ _, ⟨⟨⟨1⟩, false, false⟩, rfl⟩,
   (c7_connect_disconnect_updates [((1 : ℤ), ⟨⟨1⟩, false, false⟩)]).2.1 [⟨1⟩] ⟨1⟩
     (List.mem_cons_self _ _) ⟨⟨⟨1⟩, false, false⟩, rfl⟩⟩

/-- C6 counterexample: a change-notification whose device reference is not
an integer literal (here `"x"`, which certainly does not resolve to a
registry entry) makes the handler raise the uncaught `ValueError` from
`int(device_ref)` instead of logging and returning. -/
theorem c6_nonnumeric_ref_raises :
    messageCallback [] ['x'] none = Except.error () := rfl

/-- C6 amended: for every change-notification whose device reference parses
as an integer, if the integer is not a registry key the handler returns
without raising and issues no request; if it is a registry key the handler
issues exactly one `getstatus` refresh request scoped to that ref.  (A
reference that does not parse as an integer raises `ValueError`.) -/
theorem c6_message_callback_refresh (reg : Registry) (device_ref : List Char) (n : ℤ)
    (fetch : Option (List RawData)) (hparse : pyParseInt device_ref = some n)
    (hInv : RegInv reg) :
    (dictGet reg n = none → messageCallback reg device_ref fetch = Except.ok ([], reg)) ∧
    (∀ d, dictGet reg n = some d →
      ∃ reg', messageCallback reg device_ref fetch
        = Except.ok ([⟨"getstatus", some n, none⟩], reg')) := by
  constructor
  · intro hget
    simp [messageCallback, hparse, hget]
  · intro d hget
    have href : StatusDevice.ref d = n := dictGet_some_ref reg hInv n d hget
    cases fetch with
    | none => exact ⟨reg, by simp [messageCallback, hparse, hget, href]⟩
    | some raws =>
      exact ⟨dictSet reg n (refreshLoop d raws), by simp [messageCallback, hparse, hget, href]⟩

/-- Witness for C6 at a concrete registry containing ref 7 and the
reference string "7". -/
theorem c6_message_callback_refresh_witness :
    pyParseInt ['7'] = some 7 ∧
    dictGet [((7 : ℤ), ⟨⟨7⟩, false, false⟩)] 7 = some ⟨⟨7⟩, false, false⟩ ∧
    (∃ reg', messageCallback [((7 : ℤ), ⟨⟨7⟩, false, false⟩)] ['7'] none
      = Except.ok ([⟨"getstatus", some 7, none⟩], reg')) :=
  ⟨by decide, rfl,
   (c6_message_callback_refresh [((7 : ℤ), ⟨⟨7⟩, false, false⟩)] ['7'] 7 none (by decide)
     (by decide)).2 ⟨⟨7⟩, false, false⟩ rfl⟩

/-- C5: for every inbound line (newline-terminated, as lines delivered by
the read loop are), `_handle_message` sets the keepalive flag and, with a
message callback registered, invokes it with the second comma-separated
field exactly when the first comma-separated field equals the
device-change tag `DC`; any other first field is logged and discarded
without raising. -/
theorem c5_handle_message_dc_dispatch (raw first : List Char) (rest : List (List Char))
    (hnl : raw.getLast? = some '\n') (hsplit : splitComma raw = first :: rest) :
    (handleMessage true raw).ping_flag = true ∧
    (handleMessage true raw).raised = false ∧
    (first = ['D', 'C'] →
      ∃ second rest2, rest = second :: rest2 ∧
        (handleMessage true raw).callback_arg = some second) ∧
    (first ≠ ['D', 'C'] → (handleMessage true raw).callback_arg = none) := by
  by_cases hdc : first = ['D', 'C']
  · subst hdc
    cases rest with
    | nil =>
      exfalso
      have hr := splitComma_singleton raw ['D', 'C'] hsplit
      rw [← hr] at hnl
      exact absurd hnl (by decide)
    | cons second rest2 =>
      have hM : handleMessage true raw = ⟨true, some second, false⟩ := by
        unfold handleMessage
        rw [hsplit]
        simp
      rw [hM]
      exact ⟨rfl, rfl, fun _ => ⟨second, rest2, rfl, rfl⟩, fun h => absurd rfl h⟩
  · have hM : handleMessage true raw = ⟨true, none, false⟩ := by
      unfold handleMessage
      rw [hsplit]
      simp [hdc]
    rw [hM]
    exact ⟨rfl, rfl, fun h => absurd h hdc, fun _ => rfl⟩

/-- Witness for C5 at the concrete line `DC,5,1,0` (newline-terminated):
the callback receives the second field `5`. -/
theorem c5_handle_message_dc_dispatch_witness :
    (handleMessage true ['D', 'C', ',', '5', ',', '1', ',', '0', '\n']).ping_flag = true ∧
    (handleMessage true ['D', 'C', ',', '5', ',', '1', ',', '0', '\n']).callback_arg
      = some ['5'] := by
  have h := c5_handle_message_dc_dispatch ['D', 'C', ',', '5', ',', '1', ',', '0', '\n']
    ['D', 'C'] [['5'], ['1'], ['0', '\n']] (by decide) (by decide)
  obtain ⟨hp, _, hdc, _⟩ := h
  obtain ⟨s, r2, hrest, harg⟩ := hdc rfl
  have hs : s = ['5'] := by
    have := congrArg List.head? hrest
    simpa using this.symm
  rw [hs] at harg
  exact ⟨hp, harg⟩

/-- C4 counterexample: the auth reply line `" ok\r\n"`, whose body `" ok"`
is not exactly the success token `ok`, is nevertheless accepted by
`_open_connection` (which compares after `str.strip()`). -/
theorem c4_auth_exact_body_counterexample :
    (openConnection ⟨LState.idle, false, false, false, true, true⟩
      ⟨true, [' ', 'o', 'k', '\r', '\n']⟩).1 = true ∧
    specLineBody [' ', 'o', 'k', '\r', '\n'] ≠ ['o', 'k'] := by
  exact ⟨rfl, by decide⟩

/-- C4 amended: with the connection open, the authentication handshake
succeeds exactly when the reply line stripped of leading and trailing
whitespace equals the success token `ok` (case-sensitive); for every other
reply `start()` reports failure, the state stays `idle` (never
`connected`), and neither the read loop nor the keepalive task is
spawned. -/
theorem c4_auth_strip_match (m : ListenerModel) (script : ConnScript)
    (hconn : script.connect_ok = true) :
    ((openConnection m script).1 = true ↔ pyStrip script.auth_reply = ['o', 'k']) ∧
    (pyStrip script.auth_reply ≠ ['o', 'k'] →
      (start m script).1.state = LState.idle ∧
      (start m script).1.state ≠ LState.connected ∧
      (start m script).2.listen_spawned = false ∧
      (start m script).2.ping_spawned = false ∧
      (start m script).2.reconnect_handler_spawned = true) := by
  constructor
  · by_cases hok : pyStrip script.auth_reply = ['o', 'k'] <;>
      simp [openConnection, hconn, hok]
  · intro hok
    simp [start, openConnection, hconn, hok]

/-- Witness for C4 at a concrete rejected reply line `no`. -/
theorem c4_auth_strip_match_witness :
    (⟨true, ['n', 'o', '\r', '\n']⟩ : ConnScript).connect_ok = true ∧
    pyStrip ['n', 'o', '\r', '\n'] ≠ ['o', 'k'] ∧
    (start ⟨LState.idle, false, false, false, true, true⟩
      ⟨true, ['n', 'o', '\r', '\n']⟩).2.listen_spawned = false ∧
    (start ⟨LState.idle, false, false, false, true, true⟩
      ⟨true, ['n', 'o', '\r', '\n']⟩).2.ping_spawned = false := by
  have h := (c4_auth_strip_match ⟨LState.idle, false, false, false, true, true⟩
    ⟨true, ['n', 'o', '\r', '\n']⟩ rfl).2 (by decide)
  exact ⟨rfl, by decide, h.2.2.1, h.2.2.2.1⟩

/-- C2 counterexample: `dim(29)` on a dimmable device with `on_value = 100`
issues the value 28 (binary64 arithmetic rounds `100 * (29 / 100)` to
`28.999999999999996`, which `int` truncates), while
`floor(on_value * percent / 100) = 29`. -/
theorem c2_dim_floor_counterexample :
    dim 100 1 29 = ([⟨"controldevicebyvalue", some 1, some 28⟩], none) ∧
    ⌊((100 : ℚ) * 29) / 100⌋ = 29 ∧ (28 : ℤ) ≠ 29 := by
  refine ⟨rfl, ?_, by decide⟩
  norm_num

theorem log2floorGo_spec (fuel : ℕ) : ∀ n : ℕ, 0 < n → n ≤ fuel →
    2 ^ log2floorGo fuel n ≤ n ∧ n < 2 ^ (log2floorGo fuel n + 1) := by
  induction fuel with
  | zero => intro n hn hle; omega
  | succ fuel ih =>
    intro n hn hle
    simp only [log2floorGo]
    by_cases h2 : 2 ≤ n
    · rw [if_pos h2]
      have hdiv : 0 < n / 2 := Nat.div_pos h2 (by norm_num)
      have hlt : n / 2 < n := Nat.div_lt_self hn (by norm_num)
      have hle2 : n / 2 ≤ fuel := by omega
      obtain ⟨ha, hb⟩ := ih (n / 2) hdiv hle2
      constructor
      · calc 2 ^ (log2floorGo fuel (n / 2) + 1) = 2 ^ log2floorGo fuel (n / 2) * 2 := by ring
          _ ≤ n / 2 * 2 := Nat.mul_le_mul_right 2 ha
          _ ≤ n := Nat.div_mul_le_self n 2
      · calc n < (n / 2 + 1) * 2 := by omega
          _ ≤ 2 ^ (log2floorGo fuel (n / 2) + 1) * 2 := Nat.mul_le_mul_right 2 (by omega)
          _ = 2 ^ (log2floorGo fuel (n / 2) + 1 + 1) := by ring
    · rw [if_neg h2]
      have : n = 1 := by omega
      subst this
      simp

theorem log2floor_spec (n : ℕ) (hn : 0 < n) :
    2 ^ log2floor n ≤ n ∧ n < 2 ^ (log2floor n + 1) :=
  log2floorGo_spec n n hn le_rfl

theorem ratioLog2_spec (a b : ℕ) (ha : 0 < a) (hb : 0 < b) :
    (2 : ℚ) ^ ratioLog2 a b ≤ (a : ℚ) / b ∧ (a : ℚ) / b < 2 ^ (ratioLog2 a b + 1) := by
  have hbq : (0 : ℚ) < b := by exact_mod_cast hb
  have haq : (0 : ℚ) < a := by exact_mod_cast ha
  by_cases hba : b ≤ a
  · obtain ⟨h1, h2⟩ := log2floor_spec (a / b) (Nat.div_pos hba hb)
    simp only [ratioLog2, if_pos hba]
    constructor
    · rw [zpow_natCast, le_div_iff hbq]
      have h3 : 2 ^ log2floor (a / b) * b ≤ a / b * b := Nat.mul_le_mul_right b h1
      have h4 : a / b * b ≤ a := Nat.div_mul_le_self a b
      exact_mod_cast le_trans h3 h4
    · have h5 : a < (a / b + 1) * b := by
        have h := Nat.div_add_mod a b
        have hm : a % b < b := Nat.mod_lt a hb
        calc a = b * (a / b) + a % b := h.symm
          _ < b * (a / b) + b := by omega
          _ = (a / b + 1) * b := by ring
      have h6 : (a / b + 1) * b ≤ 2 ^ (log2floor (a / b) + 1) * b :=
        Nat.mul_le_mul_right b (by omega)
      have h7 : a < 2 ^ (log2floor (a / b) + 1) * b := lt_of_lt_of_le h5 h6
      rw [div_lt_iff hbq]
      calc (a : ℚ) < ((2 ^ (log2floor (a / b) + 1) * b : ℕ) : ℚ) := by exact_mod_cast h7
        _ = 2 ^ ((log2floor (a / b) : ℤ) + 1) * b := by
            rw [zpow_add₀ (two_ne_zero), zpow_one, zpow_natCast]
            push_cast
            ring
  · have hab : a < b := lt_of_not_le hba
    have hdiv : 0 < b / a := Nat.div_pos (le_of_lt hab) ha
    obtain ⟨g1, g2⟩ := log2floor_spec (b / a) hdiv
    have h2M : (0 : ℚ) < 2 ^ log2floor (b / a) := by positivity
    have h2M1 : (0 : ℚ) < 2 ^ (log2floor (b / a) + 1) := by positivity
    -- 2^M * a ≤ b  and  b < 2^(M+1) * a  over ℕ
    have hNat1 : 2 ^ log2floor (b / a) * a ≤ b := by
      have := Nat.mul_le_mul_right a g1
      exact le_trans this (Nat.div_mul_le_self b a)
    have hNat2 : b < 2 ^ (log2floor (b / a) + 1) * a := by
      have h5 : b < (b / a + 1) * a := by
        have h := Nat.div_add_mod b a
        have hm : b % a < a := Nat.mod_lt b ha
        calc b = a * (b / a) + b % a := h.symm
          _ < a * (b / a) + a := by omega
          _ = (b / a + 1) * a := by ring
      exact lt_of_lt_of_le h5 (Nat.mul_le_mul_right a (by omega))
    simp only [ratioLog2, if_neg hba]
    by_cases hsub : b ≤ a * 2 ^ log2floor (b / a)
    · rw [if_pos hsub]
      constructor
      · rw [zpow_neg, zpow_natCast, le_div_iff hbq, inv_mul_eq_div, div_le_iff h2M]
        exact_mod_cast hsub
      · have hle : (a : ℚ) / b ≤ 2 ^ (-(log2floor (b / a) : ℤ)) := by
          rw [zpow_neg, zpow_natCast, div_le_iff hbq, inv_mul_eq_div, le_div_iff h2M]
          calc (a : ℚ) * 2 ^ log2floor (b / a) = ((2 ^ log2floor (b / a) * a : ℕ) : ℚ) := by
                push_cast; ring
            _ ≤ (b : ℚ) := by exact_mod_cast hNat1
        refine lt_of_le_of_lt hle ?_
        have : (-(log2floor (b / a) : ℤ)) < -(log2floor (b / a) : ℤ) + 1 := by omega
        exact zpow_lt_zpow_right₀ one_lt_two this
    · rw [if_neg hsub]
      have hsub' : a * 2 ^ log2floor (b / a) < b := lt_of_not_le hsub
      constructor
      · have hexp : (-(log2floor (b / a) : ℤ) - 1) = -((log2floor (b / a) + 1 : ℕ) : ℤ) := by
          push_cast; ring
        rw [hexp, zpow_neg, zpow_natCast, inv_eq_one_div,
          div_le_div_iff (by positivity) hbq, one_mul]
        calc (b : ℚ) ≤ ((2 ^ (log2floor (b / a) + 1) * a : ℕ) : ℚ) := by
              exact_mod_cast le_of_lt hNat2
          _ = (a : ℚ) * 2 ^ (log2floor (b / a) + 1) := by push_cast; ring
      · have heq : (-(log2floor (b / a) : ℤ) - 1) + 1 = -(log2floor (b / a) : ℤ) := by ring
        rw [heq, zpow_neg, zpow_natCast, div_lt_iff hbq, inv_mul_eq_div, lt_div_iff h2M]
        exact_mod_cast hsub'

theorem roundPosRatio_exact (B N : ℕ) (hB : 0 < B) : roundPosRatio (N * B) B = N := by
  unfold roundPosRatio
  simp [Nat.mul_div_cancel N hB, Nat.mul_mod_left, hB]

theorem floatOfPosRatio_exact (a b n : ℕ) (t : ℤ) (ha : 0 < a) (hb : 0 < b)
    (hn : 0 < n) (h53 : n < 2 ^ 53) (hval : (a : ℚ) / b = (n : ℚ) * 2 ^ t) :
    ratVal (floatOfPosRatio a b) = (a : ℚ) / b := by
  have hbq : (0 : ℚ) < b := by exact_mod_cast hb
  obtain ⟨hL1, _⟩ := ratioLog2_spec a b ha hb
  -- the quotient is below 2 ^ (t + 53), so ratioLog2 a b ≤ t + 52
  have hlt : (a : ℚ) / b < 2 ^ (t + 53) := by
    rw [hval]
    have hn53 : (n : ℚ) < 2 ^ (53 : ℕ) := by exact_mod_cast h53
    calc (n : ℚ) * 2 ^ t < 2 ^ (53 : ℕ) * 2 ^ t := by
          exact mul_lt_mul_of_pos_right hn53 (zpow_pos (by norm_num) t)
      _ = 2 ^ (t + 53) := by
          rw [zpow_add₀ (two_ne_zero : (2 : ℚ) ≠ 0) t 53, mul_comm]
          norm_num
  have hLe : ratioLog2 a b ≤ t + 52 := by
    by_contra hcon
    push_neg at hcon
    have h1 : (2 : ℚ) ^ (t + 53) ≤ 2 ^ ratioLog2 a b :=
      zpow_le_zpow_right₀ (by norm_num) (by omega)
    exact absurd hlt (not_lt.mpr (le_trans h1 hL1))
  set E : ℤ := ratioLog2 a b - 52 with hE
  have het : E ≤ t := by omega
  have hkt : ((t - E).toNat : ℤ) = t - E := Int.toNat_of_nonneg (by omega)
  set NN : ℕ := n * 2 ^ (t - E).toNat with hNN
  have hNq : (NN : ℚ) = (n : ℚ) * 2 ^ (t - E) := by
    rw [hNN]
    push_cast
    rw [← zpow_natCast (2 : ℚ) ((t - E).toNat), hkt]
  have hq2 : (a : ℚ) / b = (NN : ℚ) * 2 ^ E := by
    rw [hval, hNq, mul_assoc, ← zpow_add₀ (two_ne_zero : (2 : ℚ) ≠ 0)]
    ring_nf
  have haN : (a : ℚ) = (NN : ℚ) * 2 ^ E * b := by
    rw [← hq2, div_mul_cancel₀]
    exact ne_of_gt hbq
  by_cases hce : 0 ≤ E
  · have hB : 0 < b * 2 ^ E.toNat := by positivity
    have h2 : (E.toNat : ℤ) = E := Int.toNat_of_nonneg hce
    have hkey : a = NN * (b * 2 ^ E.toNat) := by
      have h1 := haN
      rw [← h2, zpow_natCast] at h1
      have h3 : (a : ℚ) = ((NN * (b * 2 ^ E.toNat) : ℕ) : ℚ) := by
        rw [h1]
        push_cast
        ring
      exact_mod_cast h3
    have hround : roundPosRatio a (b * 2 ^ E.toNat) = NN := by
      rw [hkey]
      exact roundPosRatio_exact _ _ hB
    simp only [floatOfPosRatio, ← hE, if_pos hce]
    rw [hround]
    show (NN : ℚ) * 2 ^ E = (a : ℚ) / b
    exact hq2.symm
  · have hkey : a * 2 ^ (-E).toNat = NN * b := by
      have h2 : ((-E).toNat : ℤ) = -E := Int.toNat_of_nonneg (by omega)
      have h1 : (a : ℚ) * 2 ^ (-E) = (NN : ℚ) * b := by
        rw [haN, mul_assoc ((NN : ℚ) * 2 ^ E), mul_comm (b : ℚ), ← mul_assoc,
          mul_assoc (NN : ℚ), ← zpow_add₀ (two_ne_zero : (2 : ℚ) ≠ 0)]
        simp
      rw [← h2, zpow_natCast] at h1
      have h3 : ((a * 2 ^ (-E).toNat : ℕ) : ℚ) = ((NN * b : ℕ) : ℚ) := by
        push_cast
        exact_mod_cast h1
      exact_mod_cast h3
    have hround : roundPosRatio (a * 2 ^ (-E).toNat) b = NN := by
      rw [hkey]
      exact roundPosRatio_exact _ _ hb
    simp only [floatOfPosRatio, ← hE, if_neg hce]
    rw [hround]
    show (NN : ℚ) * 2 ^ E = (a : ℚ) / b
    exact hq2.symm

/-- Truncation toward zero of a nonnegative binary64 value (the final
`int(...)` of `dim` on the magnitude): it equals the floor of the exact
value. -/
theorem magFloor (m : ℕ) (e : ℤ) :
    ((if 0 ≤ e then m * 2 ^ e.toNat else m / 2 ^ (-e).toNat : ℕ) : ℤ) = ⌊ratVal (m, e)⌋ := by
  by_cases hce : 0 ≤ e
  · rw [if_pos hce]
    have h2 : (e.toNat : ℤ) = e := Int.toNat_of_nonneg hce
    have h3 : ratVal (m, e) = ((m * 2 ^ e.toNat : ℕ) : ℚ) := by
      show (m : ℚ) * 2 ^ e = _
      push_cast
      rw [← zpow_natCast (2 : ℚ) e.toNat, h2]
    rw [h3, Int.floor_natCast]
  · rw [if_neg hce]
    have h2 : ((-e).toNat : ℤ) = -e := Int.toNat_of_nonneg (by omega)
    have h3 : ratVal (m, e) = (m : ℚ) / ((2 ^ (-e).toNat : ℕ) : ℚ) := by
      show (m : ℚ) * 2 ^ e = _
      push_cast
      rw [← zpow_natCast (2 : ℚ) (-e).toNat, h2, zpow_neg, div_eq_mul_inv, inv_inv]
    rw [h3, Rat.floor_natCast_div_natCast]
    exact (Int.natCast_div _ _).symm ▸ rfl
/-- For positive operands whose `percent / 100` is exactly representable in
binary64 (value `n1 * 2 ^ t1`) and whose product significand fits in 53
bits, `dimValue` computes the exact floor. -/
theorem dimValue_pos (onv p : ℤ) (n1 : ℕ) (t1 : ℤ)
    (hon : 0 < onv) (hp : 0 < p)
    (hfl : ((p.natAbs : ℚ)) / 100 = (n1 : ℚ) * 2 ^ t1)
    (hn1 : 0 < n1) (hprod : onv.natAbs * n1 < 2 ^ 53) :
    dimValue onv p = ⌊(onv : ℚ) * p / 100⌋ := by
  have hguard : ¬(onv = 0 ∨ p = 0) := by omega
  have honn : (0 : ℕ) < onv.natAbs := by omega
  have hpn : (0 : ℕ) < p.natAbs := by omega
  have habs_on : ((onv.natAbs : ℚ)) = (onv : ℚ) := by
    rw [Int.cast_natAbs]
    exact_mod_cast abs_of_nonneg hon.le
  have habs_p : ((p.natAbs : ℚ)) = (p : ℚ) := by
    rw [Int.cast_natAbs]
    exact_mod_cast abs_of_nonneg hp.le
  have hon53 : onv.natAbs < 2 ^ 53 := lt_of_le_of_lt (Nat.le_mul_of_pos_right _ hn1) hprod
  have hn153 : n1 < 2 ^ 53 := lt_of_le_of_lt (Nat.le_mul_of_pos_left _ honn) hprod
  simp only [dimValue, hguard, if_false]
  set p1 := floatOfPosRatio p.natAbs 100 with hp1def
  set p0 := floatOfPosRatio onv.natAbs 1 with hp0def
  set e := p0.2 + p1.2 with he
  set a2 := p0.1 * p1.1 with ha2
  set p2 := if 0 ≤ e then floatOfPosRatio (a2 * 2 ^ e.toNat) 1
            else floatOfPosRatio a2 (2 ^ (-e).toNat) with hp2
  rw [if_pos (iff_of_false (not_lt.mpr hon.le) (not_lt.mpr hp.le))]
  rw [magFloor]
  suffices hv : ratVal (p2.1, p2.2) = (onv : ℚ) * p / 100 by rw [hv]
  -- exact values of the two rounded operands
  have hfl' : (p.natAbs : ℚ) / ((100 : ℕ) : ℚ) = (n1 : ℚ) * 2 ^ t1 := by exact_mod_cast hfl
  have hv1 : ratVal p1 = (p.natAbs : ℚ) / ((100 : ℕ) : ℚ) :=
    floatOfPosRatio_exact p.natAbs 100 n1 t1 hpn (by norm_num) hn1 hn153 hfl'
  have hv0 : ratVal p0 = (onv.natAbs : ℚ) / ((1 : ℕ) : ℚ) :=
    floatOfPosRatio_exact onv.natAbs 1 onv.natAbs 0 honn one_pos honn hon53 (by simp)
  -- significands are positive
  have hm1 : 0 < p1.1 := by
    rcases Nat.eq_zero_or_pos p1.1 with h | h
    · exfalso
      have : ratVal p1 = 0 := by unfold ratVal; rw [h]; simp
      rw [hv1] at this
      have hpq : (0 : ℚ) < (p.natAbs : ℚ) := by exact_mod_cast hpn
      rw [div_eq_zero_iff] at this
      rcases this with h' | h' <;> norm_num [ne_of_gt hpq] at h'
    · exact h
  have hm0 : 0 < p0.1 := by
    rcases Nat.eq_zero_or_pos p0.1 with h | h
    · exfalso
      have : ratVal p0 = 0 := by unfold ratVal; rw [h]; simp
      rw [hv0] at this
      have hpq : (0 : ℚ) < (onv.natAbs : ℚ) := by exact_mod_cast honn
      rw [div_eq_zero_iff] at this
      rcases this with h' | h' <;> norm_num [ne_of_gt hpq] at h'
    · exact h
  -- the exact product value
  have hprodval : (a2 : ℚ) * 2 ^ e = (onv : ℚ) * p / 100 := by
    have : (a2 : ℚ) * 2 ^ e = ratVal p0 * ratVal p1 := by
      unfold ratVal
      rw [ha2, he]
      push_cast
      rw [zpow_add₀ (two_ne_zero : (2 : ℚ) ≠ 0)]
      ring
    rw [this, hv0, hv1, habs_on, habs_p]
    push_cast
    ring
  have hval2 : (a2 : ℚ) * 2 ^ e = ((onv.natAbs * n1 : ℕ) : ℚ) * 2 ^ t1 := by
    calc (a2 : ℚ) * 2 ^ e = (onv : ℚ) * p / 100 := hprodval
      _ = (onv.natAbs : ℚ) * ((p.natAbs : ℚ) / ((100 : ℕ) : ℚ)) := by
          rw [habs_on, habs_p]; push_cast; ring
      _ = (onv.natAbs : ℚ) * ((n1 : ℚ) * 2 ^ t1) := by rw [hfl']
      _ = ((onv.natAbs * n1 : ℕ) : ℚ) * 2 ^ t1 := by push_cast; ring
  have hnn : 0 < onv.natAbs * n1 := Nat.mul_pos honn hn1
  by_cases hce : 0 ≤ e
  · have h2 : (e.toNat : ℤ) = e := Int.toNat_of_nonneg hce
    have hvalratio : ((a2 * 2 ^ e.toNat : ℕ) : ℚ) / ((1 : ℕ) : ℚ)
        = ((onv.natAbs * n1 : ℕ) : ℚ) * 2 ^ t1 := by
      rw [← hval2]
      push_cast
      rw [← zpow_natCast (2 : ℚ) e.toNat, h2]
      ring
    have hex := floatOfPosRatio_exact (a2 * 2 ^ e.toNat) 1 (onv.natAbs * n1) t1
      (by positivity) one_pos hnn hprod hvalratio
    rw [hp2, if_pos hce]
    rw [show ratVal ((floatOfPosRatio (a2 * 2 ^ e.toNat) 1).1,
          (floatOfPosRatio (a2 * 2 ^ e.toNat) 1).2) = ratVal (floatOfPosRatio (a2 * 2 ^ e.toNat) 1)
        from rfl, hex, hvalratio, hval2.symm, hprodval]
  · have h2 : ((-e).toNat : ℤ) = -e := Int.toNat_of_nonneg (by omega)
    have hvalratio : ((a2 : ℕ) : ℚ) / ((2 ^ (-e).toNat : ℕ) : ℚ)
        = ((onv.natAbs * n1 : ℕ) : ℚ) * 2 ^ t1 := by
      rw [← hval2]
      push_cast
      rw [← zpow_natCast (2 : ℚ) (-e).toNat, h2, zpow_neg, div_eq_mul_inv, inv_inv]
    have hex := floatOfPosRatio_exact a2 (2 ^ (-e).toNat) (onv.natAbs * n1) t1
      (by positivity) (by positivity) hnn hprod hvalratio
    rw [hp2, if_neg hce]
    rw [show ratVal ((floatOfPosRatio a2 (2 ^ (-e).toNat)).1,
          (floatOfPosRatio a2 (2 ^ (-e).toNat)).2) = ratVal (floatOfPosRatio a2 (2 ^ (-e).toNat))
        from rfl, hex, hvalratio, hval2.symm, hprodval]
example : ((25:ℤ).natAbs : ℚ)/100 = ((1:ℕ) : ℚ) * 2^(-2:ℤ) := by norm_num
example : ((75:ℤ).natAbs : ℚ)/100 = ((3:ℕ) : ℚ) * 2^(-2:ℤ) := by norm_num
example : ((100:ℤ).natAbs : ℚ)/100 = ((1:ℕ) : ℚ) * 2^(0:ℤ) := by norm_num
/-- C2 amended: for every dimmable device with integer `on_value` in
`[0, 2^51)` and `percent` in `{0, 25, 50, 75, 100}` (where `percent / 100`
is exactly representable in binary64, so no rounding error occurs),
`dim(percent)` issues exactly one control request whose value equals
`floor(on_value * percent / 100)`.  For other percentages the binary64
computation can fall one below the exact floor, as the counterexample
shows. -/
theorem c2_dim_quarter (on_value ref percent : ℤ)
    (h0 : 0 ≤ on_value) (h1 : on_value < 2 ^ 51)
    (hp : percent = 0 ∨ percent = 25 ∨ percent = 50 ∨ percent = 75 ∨ percent = 100) :
    dim on_value ref percent =
      ([⟨"controldevicebyvalue", some ref, some ⌊(on_value : ℚ) * percent / 100⌋⟩], none) := by
  have hguard : ¬(percent < 0 ∨ 100 < percent) := by rcases hp with h|h|h|h|h <;> omega
  have hN : on_value.natAbs < 2 ^ 51 := by
    have heq : (on_value.natAbs : ℤ) = on_value := Int.natAbs_of_nonneg h0
    exact_mod_cast heq ▸ h1
  have hN53a : on_value.natAbs * 1 < 2 ^ 53 := by
    calc on_value.natAbs * 1 = on_value.natAbs := mul_one _
      _ < 2 ^ 51 := hN
      _ ≤ 2 ^ 53 := by norm_num
  have hN53b : on_value.natAbs * 3 < 2 ^ 53 := by
    calc on_value.natAbs * 3 < 2 ^ 51 * 3 := by
          exact (Nat.mul_lt_mul_right (by norm_num)).mpr hN
      _ ≤ 2 ^ 53 := by norm_num
  have hdv : dimValue on_value percent = ⌊(on_value : ℚ) * percent / 100⌋ := by
    rcases eq_or_lt_of_le h0 with hz | hpos
    · rw [← hz]
      rw [show dimValue 0 percent = 0 from by unfold dimValue; simp]
      norm_num
    · rcases hp with h|h|h|h|h <;> subst h
      · rw [show dimValue on_value 0 = 0 from by unfold dimValue; simp]
        norm_num
      · rw [dimValue_pos on_value 25 1 (-2) hpos (by norm_num) (by norm_num) (by norm_num) hN53a]
      · rw [dimValue_pos on_value 50 1 (-1) hpos (by norm_num) (by norm_num) (by norm_num) hN53a]
      · rw [dimValue_pos on_value 75 3 (-2) hpos (by norm_num) (by norm_num) (by norm_num) hN53b]
      · rw [dimValue_pos on_value 100 1 0 hpos (by norm_num) (by norm_num) (by norm_num) hN53a]
  unfold dim
  rw [if_neg hguard, hdv]

/-- Witness for the amended C2 at `on_value = 7`, `percent = 75`: exactly
one request with value `5 = floor(7 * 75 / 100)`. -/
theorem c2_dim_quarter_witness :
    (0 : ℤ) ≤ 7 ∧ (7 : ℤ) < 2 ^ 51 ∧
    ((75 : ℤ) = 0 ∨ (75 : ℤ) = 25 ∨ (75 : ℤ) = 50 ∨ (75 : ℤ) = 75 ∨ (75 : ℤ) = 100) ∧
    dim 7 1 75 = ([⟨"controldevicebyvalue", some 1, some 5⟩], none) := by
  refine ⟨by norm_num, by norm_num, by norm_num, ?_⟩
  rw [c2_dim_quarter 7 1 75 (by norm_num) (by norm_num) (by norm_num)]
  have hf : ⌊((7 : ℤ) : ℚ) * ((75 : ℤ) : ℚ) / 100⌋ = (5 : ℤ) := by
    push_cast
    norm_num
  rw [hf]

end LibHomeSeer
